import Mathlib

/-!
Verification of the ComfyUI REST API wrappers (fastwan2.2-5b,
infinite-talk-v1, qwen-image-edit-comfyui).  The Python wrappers are
embedded shallowly: the in-memory `job_status` dict becomes a map from job
id to an optional record, the websocket watcher loop becomes a step
function over a list of incoming frames, workflow templates become maps
from `(node, input field)` keys to values, and the filesystem seen by the
artifact-resolution helpers becomes a list of file names (with
modification times where the code reads them).
-/

namespace ComfyWrap

/-- Characters of a file or path name.  The wrappers handle names as Python
strings; we model them as lists of characters. -/
abbrev FileName := List Char

/-- Record stored for a job in the in-memory `job_status` dict.  Python
stores heterogeneous dicts; each optional field models a key that may be
absent from the dict. -/
structure JobRecord where
  status : String
  progress : Option ℚ := none
  error : Option String := none
  prompt_id : Option String := none
  video_ready : Option Bool := none
  download_url : Option String := none
  message : Option String := none
  image_ready : Option Bool := none
  image_path : Option (List Char) := none
deriving Repr, DecidableEq

/-- Python `x or y` on floats: `y` when `x` is zero (falsy), otherwise `x`.
This is the exact semantics of `float(...) or 0.0` / `float(...) or 1.0`
in the progress handler: only an exact zero is replaced. -/
def pyOr (x y : ℚ) : ℚ := if x = 0 then y else x

/-- Clamp a percentage to `[0, 100]`, as `max(0.0, min(100.0, _))` does in
the progress handler of each wrapper. -/
def clamp100 (x : ℚ) : ℚ := max 0 (min 100 x)

/-- Payload of a `progress` message: `data["data"]["value"]` and
`data["data"]["max"]` after `float(...)`.  `none` models a missing key or a
value `float` rejects; the handler's `except: pass` then skips the update. -/
structure ProgressData where
  value : Option ℚ
  max : Option ℚ
deriving Repr, DecidableEq

/-- Parsed JSON text messages, with exactly the fields
`wait_for_completion` reads.  `other` covers every other `type` value
(ComfyUI also sends `status`, `executing`, ... which the loop ignores). -/
inductive WsMsg
  | progress (d : ProgressData)
  | executed (prompt_id : Option String) (node : Option String)
  | execution_error (prompt_id : Option String) (exception_message : Option String)
  | other
deriving Repr, DecidableEq

/-- WebSocket frames as the watcher loop discriminates them: a decodable
text frame, a text frame whose JSON parse fails, binary/continuation
frames, and control frames. -/
inductive WsFrame
  | text (m : WsMsg)
  | malformedText
  | binary
  | close
  | ping
  | pong
deriving Repr, DecidableEq

/-- Result of handling one frame: keep looping with the (possibly updated)
record, or break out of the `while True` loop with the final record. -/
inductive StepResult
  | cont (rec : JobRecord)
  | stop (rec : JobRecord)
deriving Repr, DecidableEq

/-- Handler of one `progress` message:
`val = float(...) or 0.0`, `mx = float(...) or 1.0`,
`progress = max(0.0, min(100.0, (val / mx) * 100.0))`, stored into the
job's record.  When either extraction raises (a `none` field) the record
is left unchanged (`except: pass`); note `mx` is computed after `val`, so
a malformed `max` also leaves the record unchanged. -/
def progressUpdate (d : ProgressData) (rec : JobRecord) : JobRecord :=
  match d.value, d.max with
  | some v, some m =>
      { rec with progress := some (clamp100 (pyOr v 0 / pyOr m 1 * 100)) }
  | _, _ => rec

/-- One iteration of the `while True` loop of `wait_for_completion`,
parameterised by the job's backend run id `pid` and the deployment's final
output node id `finalNode` ("58" for FastWAN, "131" for InfiniteTalk, "60"
for Qwen image edit); the wrappers share this loop verbatim.  An
`executed` message replaces the record and breaks only when both the
prompt id and the node id match; an `execution_error` message replaces
the record and breaks unconditionally. -/
def waitStep (pid finalNode : String) (rec : JobRecord) : WsFrame → StepResult
  | .text m =>
    match m with
    | .progress d => .cont (progressUpdate d rec)
    | .executed p n =>
        if p = some pid then
          if n = some finalNode then
            .stop { status := "completed", progress := some 100 }
          else .cont rec
        else .cont rec
    | .execution_error _ em =>
        .stop { status := "error", error := some (em.getD "Unknown execution error") }
    | .other => .cont rec
  | .malformedText => .cont rec
  | .binary => .cont rec
  | .close => .stop rec
  | .ping => .cont rec
  | .pong => .cont rec

/-- Run the watcher loop over a list of incoming frames starting from
record `rec`; returns the job's record when the loop breaks or the frame
list is exhausted. -/
def waitRun (pid finalNode : String) (rec : JobRecord) : List WsFrame → JobRecord
  | [] => rec
  | f :: fs =>
    match waitStep pid finalNode rec f with
    | .cont r => waitRun pid finalNode r fs
    | .stop r => r

/-- True when the loop breaks somewhere inside `fs` (a terminal state was
recorded, or the stream closed). -/
def waitRunStops (pid finalNode : String) (rec : JobRecord) : List WsFrame → Bool
  | [] => false
  | f :: fs =>
    match waitStep pid finalNode rec f with
    | .cont r => waitRunStops pid finalNode r fs
    | .stop _ => true

/-- Record the watcher writes on entering the loop. -/
def processingRecord : JobRecord := { status := "processing", progress := some 0 }

/-- Record written on a matching `executed` message. -/
def completedRecord : JobRecord := { status := "completed", progress := some 100 }

/-- Whole `wait_for_completion` body over a frame list: the watcher first
resets the job's record to `processing`, then runs the loop. -/
def wait_for_completion (pid finalNode : String) (frames : List WsFrame) : JobRecord :=
  waitRun pid finalNode processingRecord frames

/-- Final output node id of the FastWAN 2.2-5B workflow (SaveVideo). -/
def fastwanFinalNode : String := "58"

/-- Final output node id of the InfiniteTalk workflow (VHS_VideoCombine). -/
def infiniteTalkFinalNode : String := "131"

/-- Final output node id of the Qwen image edit workflow (SaveImage). -/
def qwenFinalNode : String := "60"

/-- Value stored at a workflow node input: the wrappers write strings,
integers and floats into the JSON template. -/
inductive WfValue
  | s (v : String)
  | i (v : Int)
  | q (v : ℚ)
deriving Repr, DecidableEq

/-- Key of one workflow input: `(node id, input field name)`, for the
accesses `workflow[node]["inputs"][field]`. -/
abbrev NodeKey := String × String

/-- Workflow JSON template, as the map it is read and written through. -/
abbrev Workflow := NodeKey → Option WfValue

/-- Unconditional dict write `workflow[node]["inputs"][field] = value`. -/
def wfSet (k : NodeKey) (v : WfValue) (w : Workflow) : Workflow :=
  fun k' => if k' = k then some v else w k'

/-- Guarded dict write `if cond: workflow[node]["inputs"][field] = value`,
stated pointwise (it agrees with `if c then wfSet k v w else w`). -/
def wfSetWhen (c : Bool) (k : NodeKey) (v : WfValue) (w : Workflow) : Workflow :=
  fun k' => if c ∧ k' = k then some v else w k'

/-- Body of a POST `/generate` request of the fastwan2.2-5b wrapper, with
the pydantic defaults. -/
structure GenerateRequest where
  prompt : String
  negative_prompt : Option String := none
  seed : Option Int := none
  steps : Option Int := some 8
  cfg : Option ℚ := some 1
  width : Option Int := some 1280
  height : Option Int := some 704
  length : Option Int := some 121
  fps : Option Int := some 24
deriving Repr, DecidableEq

/-- Python truthiness of an `Optional[int]`: `None` and `0` are falsy. -/
def truthyInt : Option Int → Bool
  | none => false
  | some n => n != 0

/-- Python truthiness of an `Optional[str]`: `None` and `""` are falsy. -/
def truthyStr : Option String → Bool
  | none => false
  | some s => s != ""

/-- Python truthiness of an `Optional[float]`: `None` and `0.0` are falsy. -/
def truthyRat : Option ℚ → Bool
  | none => false
  | some q => q != 0

/-- fastwan2.2-5b `modify_workflow`: writes the prompt into node 6, then
each optional field guarded by `if request.<field>:` (Python truthiness),
and finally the unique output filename marker into node 58.  The fresh
`uuid4` job id is passed in as `job_id`. -/
def modify_workflow (w : Workflow) (r : GenerateRequest) (job_id : String) :
    Workflow × String :=
  let w1 := wfSet ("6", "text") (.s r.prompt) w
  let w2 := wfSetWhen (truthyStr r.negative_prompt) ("7", "text")
    (.s (r.negative_prompt.getD "")) w1
  let w3 := wfSetWhen (truthyInt r.seed) ("3", "seed") (.i (r.seed.getD 0)) w2
  let w4 := wfSetWhen (truthyInt r.steps) ("3", "steps") (.i (r.steps.getD 0)) w3
  let w5 := wfSetWhen (truthyRat r.cfg) ("3", "cfg") (.q (r.cfg.getD 0)) w4
  let w6 := wfSetWhen (truthyInt r.width) ("55", "width") (.i (r.width.getD 0)) w5
  let w7 := wfSetWhen (truthyInt r.height) ("55", "height") (.i (r.height.getD 0)) w6
  let w8 := wfSetWhen (truthyInt r.length) ("55", "length") (.i (r.length.getD 0)) w7
  let w9 := wfSetWhen (truthyInt r.fps) ("57", "fps") (.i (r.fps.getD 0)) w8
  let w10 := wfSet ("58", "filename_prefix") (.s ("FastWan/api_" ++ job_id)) w9
  (w10, job_id)

/-- Template whose node-3 seed input holds 42, used as concrete input. -/
def seedTemplate : Workflow :=
  fun k => if k = ("3", "seed") then some (.i 42) else none

/-- Request providing `seed = 0` explicitly and leaving the other optional
fields unset. -/
def zeroSeedRequest : GenerateRequest :=
  { prompt := "p", negative_prompt := none, seed := some 0, steps := none,
    cfg := none, width := none, height := none, length := none, fps := none }

/-- Test whether `a` occurs as a contiguous segment of `s` (Python
`a in s` on strings; the part a bare `*` separates in a glob pattern). -/
def containsSeg (a : List Char) : List Char → Bool
  | [] => a.isEmpty
  | c :: t => a.isPrefixOf (c :: t) || containsSeg a t

/-- Glob pattern `*a*b` against a file name: the name ends with `b` and
`a` occurs somewhere before that final `b`.  All glob patterns the
wrappers build have this shape, e.g. `*{job_id}*-audio.mp4` with `a` the
job id and `b` the fixed tail `-audio.mp4`. -/
def globMatchAB (a b name : List Char) : Bool :=
  b.isSuffixOf name && containsSeg a (name.take (name.length - b.length))

/-- File as the resolution helpers see it: its base name and its
modification time (`st_mtime`, read only by the InfiniteTalk last-resort
step). -/
structure FsFile where
  name : FileName
  mtime : Int
deriving Repr, DecidableEq

/-- Loop `for ext in exts: for f in glob(pattern ext): return f` over a
fixed traversal order of the output tree: first file whose name matches
the pattern of the first extension that has a match. -/
def findFirstOverExts (files : List FsFile) (p : List Char → FileName → Bool) :
    List (List Char) → Option FsFile
  | [] => none
  | e :: es =>
    match files.find? (fun f => p e f.name) with
    | some g => some g
    | none => findFirstOverExts files p es

/-- Same loop over bare file names (helpers that never read mtimes). -/
def findOverExtsName (files : List FileName) (p : List Char → FileName → Bool) :
    List (List Char) → Option FileName
  | [] => none
  | e :: es =>
    match files.find? (p e) with
    | some n => some n
    | none => findOverExtsName files p es

/-- Video extensions searched by the InfiniteTalk priority-1 step. -/
def videoExts : List (List Char) :=
  [".mp4".toList, ".avi".toList, ".mov".toList, ".webm".toList, ".mkv".toList]

/-- Extensions of the InfiniteTalk priority-2 step (adds `.gif`). -/
def videoExtsGif : List (List Char) := videoExts ++ [".gif".toList]

/-- Fixed suffix marker of the audio-muxed output variant. -/
def audioTag : List Char := "-audio".toList

/-- First file with maximal mtime: what `sort(key=mtime, reverse=True)`
followed by taking the head yields (Python's sort is stable, so among
equal mtimes the earliest listed file stays first). -/
def pickNewest (l : List FsFile) : Option FsFile :=
  l.foldl (fun best f =>
    match best with
    | none => some f
    | some b => if f.mtime > b.mtime then some f else some b) none

/-- InfiniteTalk priority-3 step: collect files matching `*-audio{ext}`
for each video extension (falling back to `*{ext}` for extensions with no
audio match), then return the newest if it was modified within the last
300 seconds. -/
def recentFallback (files : List FsFile) (now : Int) : Option FsFile :=
  let cands := videoExts.foldl (fun acc e =>
    let audio := files.filter (fun f => globMatchAB [] (audioTag ++ e) f.name)
    acc ++ audio ++
      (if audio.isEmpty then files.filter (fun f => globMatchAB [] e f.name) else [])) []
  match pickNewest cands with
  | some f => if now - f.mtime < 300 then some f else none
  | none => none

/-- InfiniteTalk `find_output_video`: priority 1 searches `rglob`
(`files` lists every file under the output tree) for
`*{job_id}*-audio{ext}`; priority 2 relaxes to `*{job_id}*{ext}`;
priority 3 falls back to the newest recently-modified video file. -/
def InfiniteTalk.find_output_video (jid : FileName) (files : List FsFile) (now : Int) :
    Option FsFile :=
  match findFirstOverExts files (fun e n => globMatchAB jid (audioTag ++ e) n) videoExts with
  | some f => some f
  | none =>
    match findFirstOverExts files (fun e n => globMatchAB jid e n) videoExtsGif with
    | some f => some f
    | none => recentFallback files now

/-- Name matches `*{job_id}*-audio{ext}` for some searched video
extension: the file is an audio-muxed variant for this job. -/
def audioMatch (jid n : FileName) : Bool :=
  videoExts.any (fun e => globMatchAB jid (audioTag ++ e) n)

/-- Image extensions searched by the Qwen image-edit wrapper. -/
def imgExts : List (List Char) :=
  [".png".toList, ".jpg".toList, ".jpeg".toList, ".webp".toList, ".bmp".toList]

/-- Inner loop of Qwen `find_output_image` over one directory: for each
extension, first the prefixed pattern `*api_{job_id}*{ext}`, then —
within the same directory and extension — the relaxed `*{job_id}*{ext}`. -/
def qwenPerDir (apiJob jid : FileName) (files : List FileName) :
    List (List Char) → Option FileName
  | [] => none
  | e :: es =>
    match files.find? (globMatchAB apiJob e) with
    | some f => some f
    | none =>
      match files.find? (globMatchAB jid e) with
      | some f => some f
      | none => qwenPerDir apiJob jid files es

/-- Qwen `find_output_image`: scan the root output directory, then the
`QwenEdit` subfolder (a directory that does not exist behaves as an empty
listing), each with the per-directory extension loop. -/
def Qwen.find_output_image (jid : FileName) (root sub : List FileName) :
    Option FileName :=
  match qwenPerDir ("api_".toList ++ jid) jid root imgExts with
  | some f => some f
  | none => qwenPerDir ("api_".toList ++ jid) jid sub imgExts

/-- FastWAN `find_output_video`: non-recursive glob of the output root for
`*api_{job_id}*{ext}` over four video extensions (the doubled `*` of
`f"*{pattern}*{ext}"` with `pattern = f"api_{job_id}*"` collapses). -/
def FastWan.find_output_video (jid : FileName) (files : List FileName) :
    Option FileName :=
  findOverExtsName files (fun e n => globMatchAB ("api_".toList ++ jid) e n)
    [".mp4".toList, ".avi".toList, ".mov".toList, ".webm".toList]

/-- Index of the last `.` in a name (Python `name.rfind('.')`), as an
option instead of `-1`. -/
def rfindDot (n : FileName) : Option Nat :=
  match n.reverse.findIdx? (· == '.') with
  | some j => some (n.length - 1 - j)
  | none => none

/-- `Path(name).suffix`: the final extension with its dot, empty for
names with no dot, a leading dot only, or a trailing dot. -/
def pathSuffixOf (n : FileName) : FileName :=
  match rfindDot n with
  | some i => if 0 < i ∧ i < n.length - 1 then n.drop i else []
  | none => []

/-- Lower-case a name (`file_ext.lower()`; extensions are ASCII). -/
def toLowerName (n : FileName) : FileName := n.map Char.toLower

/-- Extension→MIME table of the InfiniteTalk download handler. -/
def videoMediaMap : List (FileName × String) :=
  [(".mp4".toList, "video/mp4"), (".avi".toList, "video/x-msvideo"),
   (".mov".toList, "video/quicktime"), (".webm".toList, "video/webm"),
   (".mkv".toList, "video/x-matroska")]

/-- Extension→MIME table of the Qwen download handler. -/
def imageMediaMap : List (FileName × String) :=
  [(".png".toList, "image/png"), (".jpg".toList, "image/jpeg"),
   (".jpeg".toList, "image/jpeg"), (".webp".toList, "image/webp"),
   (".bmp".toList, "image/bmp")]

/-- Response metadata (media type, served filename) of the InfiniteTalk
`download_video` handler for resolved artifact path `p`:
`file_ext = Path(p).suffix or ".mp4"`, filename
`generated_video_{job_id}{file_ext}`, media type from the table on
`file_ext.lower()` with default `video/mp4`. -/
def InfiniteTalk.downloadMeta (jid : String) (p : FileName) : String × FileName :=
  let ext := if (pathSuffixOf p).isEmpty then ".mp4".toList else pathSuffixOf p
  ((videoMediaMap.lookup (toLowerName ext)).getD "video/mp4",
    "generated_video_".toList ++ jid.toList ++ ext)

/-- Response metadata of the Qwen `download_image` handler: same scheme
with image table, default `.png` / `image/png`. -/
def Qwen.downloadMeta (jid : String) (p : FileName) : String × FileName :=
  let ext := if (pathSuffixOf p).isEmpty then ".png".toList else pathSuffixOf p
  ((imageMediaMap.lookup (toLowerName ext)).getD "image/png",
    "edited_image_".toList ++ jid.toList ++ ext)

/-- Response metadata of the FastWAN `download_video` handler: the media
type and the served filename are fixed to `video/mp4` and
`generated_video_{job_id}.mp4`, whatever the resolved path `_p` is. -/
def FastWan.downloadMeta (jid : String) (_p : FileName) : String × FileName :=
  ("video/mp4", "generated_video_".toList ++ jid.toList ++ ".mp4".toList)

/-- Shared in-memory `job_status` dict: job id to record. -/
abbrev JobMap := String → Option JobRecord

/-- FastWAN GET `/status/{job_id}`: `status = job_status[job_id]` takes
the stored dict itself, so the fields added for a completed job persist
in the map.  `videoPath` models `find_output_video`'s result; `none` is a
404.  Returns the response record and the map as it is afterwards. -/
def FastWan.get_job_status (m : JobMap) (jid : String) (videoPath : Option FileName) :
    Option (JobRecord × JobMap) :=
  match m jid with
  | none => none
  | some rec =>
    if rec.status = "completed" then
      match videoPath with
      | some _ =>
        let rec' := { rec with
                      video_ready := some true,
                      download_url := some ("/download/" ++ jid) }
        some (rec', fun k => if k = jid then some rec' else m k)
      | none =>
        let rec' := { rec with
                      video_ready := some false,
                      message := some "Video generation completed but file not found" }
        some (rec', fun k => if k = jid then some rec' else m k)
    else some (rec, m)

/-- Qwen GET `/status/{job_id}`: `status = job_status[job_id].copy()`
augments a copy, so the stored map is returned unchanged.  `found1`
models the first `find_output_image` plus existence check, `found2` the
retry after the one-second sleep. -/
def Qwen.get_job_status (m : JobMap) (jid : String) (found1 found2 : Option FileName) :
    Option (JobRecord × JobMap) :=
  match m jid with
  | none => none
  | some rec =>
    if rec.status = "completed" then
      match found1 with
      | some p =>
        some ({ rec with
                image_ready := some true,
                download_url := some ("/download/" ++ jid),
                image_path := some p }, m)
      | none =>
        let r1 := { rec with
                    image_ready := some false,
                    message := some "Image editing completed but file not found" }
        match found2 with
        | some p =>
          some ({ r1 with
                  image_ready := some true,
                  download_url := some ("/download/" ++ jid),
                  image_path := some p,
                  message := some "Image found after retry" }, m)
        | none => some (r1, m)
    else some (rec, m)

/-- Applying `wfSet` reads back pointwise. -/
@[simp] theorem wfSet_apply (k : NodeKey) (v : WfValue) (w : Workflow) (k' : NodeKey) :
    wfSet k v w k' = if k' = k then some v else w k' := rfl

/-- Applying `wfSetWhen` reads back pointwise. -/
@[simp] theorem wfSetWhen_apply (c : Bool) (k : NodeKey) (v : WfValue) (w : Workflow)
    (k' : NodeKey) :
    wfSetWhen c k v w k' = if c ∧ k' = k then some v else w k' := rfl

/-- Status field is untouched by a progress update. -/
theorem progressUpdate_status (d : ProgressData) (rec : JobRecord) :
    (progressUpdate d rec).status = rec.status := by
  rcases d with ⟨v, m⟩
  cases v <;> cases m <;> rfl

/-- Every field other than `progress` is untouched by a progress update. -/
theorem progressUpdate_shape (d : ProgressData) (rec : JobRecord) :
    progressUpdate d rec = rec ∨
      ∃ p, progressUpdate d rec = { rec with progress := some p } := by
  rcases d with ⟨v, m⟩
  cases v with
  | none => exact Or.inl rfl
  | some v' =>
    cases m with
    | none => exact Or.inl rfl
    | some m' => exact Or.inr ⟨_, rfl⟩

theorem clamp100_nonneg (x : ℚ) : 0 ≤ clamp100 x := le_max_left _ _

theorem clamp100_le (x : ℚ) : clamp100 x ≤ 100 :=
  max_le (by norm_num) (min_le_left _ _)

/-- C1: state transitions are monotonic, `Queued → Processing →
{Completed, Failed}`.  Part one: a loop iteration that keeps consuming
never changes the job's state.  Part two: the loop only breaks leaving the
record as it was (stream close) or having just recorded a terminal state
("completed" or "error").  Part three: once the loop has broken inside a
frame list — in particular after recording a terminal state — appending
any further event-stream messages (including a second terminal message)
changes neither the job's state nor its progress. -/
theorem C1_terminal_states_absorbing :
    (∀ pid fin rec f r, waitStep pid fin rec f = .cont r → r.status = rec.status)
    ∧ (∀ pid fin rec f r, waitStep pid fin rec f = .stop r →
        r = rec ∨ r.status = "completed" ∨ r.status = "error")
    ∧ (∀ pid fin rec fs more, waitRunStops pid fin rec fs = true →
        waitRun pid fin rec (fs ++ more) = waitRun pid fin rec fs) := by
  refine ⟨?_, ?_, ?_⟩
  · intro pid fin rec f r h
    cases f with
    | text m =>
      cases m with
      | progress d =>
        simp only [waitStep] at h
        cases h
        exact progressUpdate_status d rec
      | executed p n =>
        by_cases hp : p = some pid
        · by_cases hn : n = some fin
          · simp [waitStep, hp, hn] at h
          · simp only [waitStep, hp, hn, if_true, if_false] at h
            cases h; rfl
        · simp only [waitStep, hp, if_false] at h
          cases h; rfl
      | execution_error p em => simp [waitStep] at h
      | other =>
        simp only [waitStep] at h
        cases h; rfl
    | malformedText => simp only [waitStep] at h; cases h; rfl
    | binary => simp only [waitStep] at h; cases h; rfl
    | close => simp [waitStep] at h
    | ping => simp only [waitStep] at h; cases h; rfl
    | pong => simp only [waitStep] at h; cases h; rfl
  · intro pid fin rec f r h
    cases f with
    | text m =>
      cases m with
      | progress d => simp [waitStep] at h
      | executed p n =>
        by_cases hp : p = some pid
        · by_cases hn : n = some fin
          · simp only [waitStep, hp, hn, if_true] at h
            cases h
            exact Or.inr (Or.inl rfl)
          · simp [waitStep, hp, hn] at h
        · simp [waitStep, hp] at h
      | execution_error p em =>
        simp only [waitStep] at h
        cases h
        exact Or.inr (Or.inr rfl)
      | other => simp [waitStep] at h
    | malformedText => simp [waitStep] at h
    | binary => simp [waitStep] at h
    | close =>
      simp only [waitStep] at h
      cases h
      exact Or.inl rfl
    | ping => simp [waitStep] at h
    | pong => simp [waitStep] at h
  · intro pid fin rec fs more h
    induction fs generalizing rec with
    | nil => simp [waitRunStops] at h
    | cons f fs ih =>
      cases hstep : waitStep pid fin rec f with
      | cont r =>
        simp only [waitRunStops, hstep] at h
        simpa [waitRun, hstep] using ih r h
      | stop r => simp [waitRun, hstep]

/-- Witness for C1 on concrete data: a run that records a terminal
"completed" state is unchanged by a subsequent terminal message. -/
theorem C1_terminal_states_absorbing_witness :
    waitRun "P" "58" processingRecord
        ([.text (.executed (some "P") (some "58"))] ++
          [.text (.execution_error none (some "boom"))])
      = waitRun "P" "58" processingRecord [.text (.executed (some "P") (some "58"))] :=
  C1_terminal_states_absorbing.2.2 "P" "58" processingRecord
    [.text (.executed (some "P") (some "58"))]
    [.text (.execution_error none (some "boom"))] (by decide)

/-- C2: an `executed` message sets status "completed" with progress pinned
at 100 exactly when its `prompt_id` equals the job's backend run id and
its `node` equals the deployment's final output node id; if either check
fails the job record is left unchanged.  The fixed final node ids are
"58" (FastWAN) and "131" (InfiniteTalk). -/
theorem C2_executed_requires_both_checks :
    (∀ pid fin rec p n,
      ((p = some pid ∧ n = some fin) →
        waitStep pid fin rec (.text (.executed p n)) = .stop completedRecord)
      ∧ (¬(p = some pid ∧ n = some fin) →
        waitStep pid fin rec (.text (.executed p n)) = .cont rec))
    ∧ fastwanFinalNode = "58" ∧ infiniteTalkFinalNode = "131" := by
  refine ⟨?_, rfl, rfl⟩
  intro pid fin rec p n
  constructor
  · rintro ⟨hp, hn⟩
    simp [waitStep, hp, hn, completedRecord]
  · intro hnot
    by_cases hp : p = some pid
    · by_cases hn : n = some fin
      · exact absurd ⟨hp, hn⟩ hnot
      · simp [waitStep, hp, hn]
    · simp [waitStep, hp]

/-- Witness for C2: a matching message completes the job; a message with
the right run id but the wrong node leaves the record unchanged. -/
theorem C2_executed_requires_both_checks_witness :
    waitStep "P" "58" processingRecord (.text (.executed (some "P") (some "58")))
        = .stop completedRecord
    ∧ waitStep "P" "58" processingRecord (.text (.executed (some "P") (some "59")))
        = .cont processingRecord :=
  ⟨(C2_executed_requires_both_checks.1 "P" "58" processingRecord
      (some "P") (some "58")).1 ⟨rfl, rfl⟩,
    (C2_executed_requires_both_checks.1 "P" "58" processingRecord
      (some "P") (some "59")).2 (by decide)⟩

/-- C3: every processed progress message stores a progress value in
`[0, 100]` (and touches nothing but the `progress` field), including when
the reported value exceeds `max` or `max` is zero; a malformed payload
(missing or non-numeric `value` or `max`) is ignored with no change to the
job record. -/
theorem C3_progress_clamped_malformed_ignored :
    ∀ (d : ProgressData) (rec : JobRecord),
      (∀ v m, d = ⟨some v, some m⟩ →
        ∃ p, progressUpdate d rec = { rec with progress := some p }
          ∧ 0 ≤ p ∧ p ≤ 100)
      ∧ ((d.value = none ∨ d.max = none) → progressUpdate d rec = rec) := by
  intro d rec
  constructor
  · intro v m hd
    subst hd
    exact ⟨_, rfl, clamp100_nonneg _, clamp100_le _⟩
  · intro h
    rcases d with ⟨v, m⟩
    rcases h with h | h
    · cases h
      rfl
    · cases h
      cases v <;> rfl

/-- Witness for C3: value 150 over max 100 is stored clamped to 100, and a
payload whose `max` is malformed leaves the record unchanged. -/
theorem C3_progress_clamped_malformed_ignored_witness :
    (∃ p, progressUpdate ⟨some 150, some 100⟩ processingRecord
        = { processingRecord with progress := some p } ∧ 0 ≤ p ∧ p ≤ 100)
    ∧ progressUpdate ⟨some 150, none⟩ processingRecord = processingRecord :=
  ⟨(C3_progress_clamped_malformed_ignored ⟨some 150, some 100⟩ processingRecord).1
      150 100 rfl,
    (C3_progress_clamped_malformed_ignored ⟨some 150, none⟩ processingRecord).2
      (Or.inr rfl)⟩

/-- Python `x or 0.0` is the identity on a float `x`: zero stays zero. -/
theorem pyOr_zero (v : ℚ) : pyOr v 0 = v := by
  by_cases h : v = 0 <;> simp [pyOr, h]

/-- C4 counterexample: the claim says a non-positive `max` (so also
`max = -1`) is treated as 1, which at `value = 50` would store
`clamp100 (50 / 1 * 100) = 100`; the code's `float(...) or 1.0` replaces
only an exact zero, so `max = -1` is used as-is and the stored progress is
`clamp100 (50 / (-1) * 100) = 0`. -/
theorem C4_counterexample :
    (progressUpdate ⟨some 50, some (-1)⟩ processingRecord).progress = some 0
    ∧ clamp100 (50 / 1 * 100) = 100 := by
  constructor
  · show (({ processingRecord with
      progress := some (clamp100 (pyOr 50 0 / pyOr (-1) 1 * 100)) } : JobRecord)).progress
        = some 0
    norm_num [pyOr, clamp100]
  · norm_num [clamp100]

/-- C4 amended: in the progress handler the divisor is `max` itself unless
`max` is exactly zero, in which case it is 1; the divisor is therefore
never zero (no division failure), and the stored progress is the clamp to
`[0, 100]` of `value / divisor * 100`.  A negative `max` is NOT remapped
to 1: it is used as-is (the clamp then keeps the stored value in range). -/
theorem C4_divisor_only_zero_remapped :
    ∀ (v m : ℚ) (rec : JobRecord),
      progressUpdate ⟨some v, some m⟩ rec
          = { rec with progress := some (clamp100 (v / (if m = 0 then 1 else m) * 100)) }
      ∧ (if m = 0 then (1 : ℚ) else m) ≠ 0 := by
  intro v m rec
  constructor
  · show ({ rec with progress := some (clamp100 (pyOr v 0 / pyOr m 1 * 100)) } : JobRecord)
        = _
    rw [pyOr_zero]
    rfl
  · by_cases h : m = 0 <;> simp [h]

/-- Witness for C4 amended at `value = 50`, `max = -1`. -/
theorem C4_divisor_only_zero_remapped_witness :
    progressUpdate ⟨some 50, some (-1)⟩ processingRecord
        = { processingRecord with
            progress := some (clamp100 (50 / (if (-1 : ℚ) = 0 then 1 else -1) * 100)) }
      ∧ (if (-1 : ℚ) = 0 then (1 : ℚ) else -1) ≠ 0 :=
  C4_divisor_only_zero_remapped 50 (-1) processingRecord

/-- C9: an `execution_error` text message always replaces the job's record
with status "error" and the message's `exception_message` (defaulting to
"Unknown execution error" when absent) and breaks the loop, without any
check of the message's run id against the job's backend run id: the result
is identical whatever prompt id the message carries, so an error addressed
to a different run on a shared stream also fails this job. -/
theorem C9_execution_error_unfiltered :
    ∀ pid fin rec mpid em,
      waitStep pid fin rec (.text (.execution_error mpid em))
        = .stop { status := "error", error := some (em.getD "Unknown execution error") }
      ∧ ∀ mpid', waitStep pid fin rec (.text (.execution_error mpid em))
          = waitStep pid fin rec (.text (.execution_error mpid' em)) := by
  intro pid fin rec mpid em
  exact ⟨rfl, fun _ => rfl⟩

/-- C5 counterexample: the client provides `seed = 0`, yet the template's
seed value 42 at node 3 is left untouched, because `if request.seed:`
treats the provided 0 as falsy; so "whenever the client provides a value
for the field, that value is written" fails. -/
theorem C5_counterexample :
    (modify_workflow seedTemplate zeroSeedRequest "j").1 ("3", "seed") = some (.i 42)
    ∧ zeroSeedRequest.seed = some 0
    ∧ WfValue.i 42 ≠ WfValue.i 0 := by
  refine ⟨?_, rfl, by decide⟩
  simp [modify_workflow, zeroSeedRequest, seedTemplate, truthyInt, truthyStr, truthyRat]

/-- C5 amended: for each optional request field, the value at its fixed
node key after `modify_workflow` is the provided value when the field is
truthy (set and non-zero / non-empty), and the template's original value
otherwise — so an unset field leaves the template untouched, but so does a
provided falsy value (`0`, `0.0`, `""`), which is treated as unset. -/
theorem C5_apply_only_if_truthy :
    ∀ (w : Workflow) (r : GenerateRequest) (jid : String),
      (modify_workflow w r jid).1 ("7", "text")
          = (if truthyStr r.negative_prompt then some (.s (r.negative_prompt.getD ""))
              else w ("7", "text"))
      ∧ (modify_workflow w r jid).1 ("3", "seed")
          = (if truthyInt r.seed then some (.i (r.seed.getD 0)) else w ("3", "seed"))
      ∧ (modify_workflow w r jid).1 ("3", "steps")
          = (if truthyInt r.steps then some (.i (r.steps.getD 0)) else w ("3", "steps"))
      ∧ (modify_workflow w r jid).1 ("3", "cfg")
          = (if truthyRat r.cfg then some (.q (r.cfg.getD 0)) else w ("3", "cfg"))
      ∧ (modify_workflow w r jid).1 ("55", "width")
          = (if truthyInt r.width then some (.i (r.width.getD 0)) else w ("55", "width"))
      ∧ (modify_workflow w r jid).1 ("55", "height")
          = (if truthyInt r.height then some (.i (r.height.getD 0)) else w ("55", "height"))
      ∧ (modify_workflow w r jid).1 ("55", "length")
          = (if truthyInt r.length then some (.i (r.length.getD 0)) else w ("55", "length"))
      ∧ (modify_workflow w r jid).1 ("57", "fps")
          = (if truthyInt r.fps then some (.i (r.fps.getD 0)) else w ("57", "fps")) := by
  intro w r jid
  refine ⟨?_, ?_, ?_, ?_, ?_, ?_, ?_, ?_⟩ <;>
    simp [modify_workflow]

/-- Witness for C5 amended: on the concrete template and the request
providing a falsy seed, the seed key keeps the template's value. -/
theorem C5_apply_only_if_truthy_witness :
    (modify_workflow seedTemplate zeroSeedRequest "j").1 ("3", "seed")
      = (if truthyInt zeroSeedRequest.seed then some (.i (zeroSeedRequest.seed.getD 0))
          else seedTemplate ("3", "seed")) :=
  (C5_apply_only_if_truthy seedTemplate zeroSeedRequest "j").2.1

/-- Any prefix of `s` occurs as a segment of `s`. -/
theorem containsSeg_of_isPrefixOf {a s : List Char} (h : a.isPrefixOf s = true) :
    containsSeg a s = true := by
  cases s with
  | nil =>
    cases a with
    | nil => rfl
    | cons c t => simp [List.isPrefixOf] at h
  | cons c t =>
    simp only [containsSeg, Bool.or_eq_true]
    exact Or.inl h

/-- When `x ++ a` is a prefix of `s`, the tail part `a` occurs in `s`. -/
theorem containsSeg_of_append_isPrefixOf {x a s : List Char}
    (h : (x ++ a).isPrefixOf s = true) : containsSeg a s = true := by
  induction x generalizing s with
  | nil => exact containsSeg_of_isPrefixOf (by simpa using h)
  | cons c x ih =>
    cases s with
    | nil => simp [List.isPrefixOf] at h
    | cons d t =>
      simp only [List.cons_append, List.isPrefixOf, Bool.and_eq_true] at h
      have ht := ih h.2
      simp only [containsSeg, Bool.or_eq_true]
      exact Or.inr ht

/-- An occurrence of `x ++ a` contains an occurrence of `a`. -/
theorem containsSeg_append_left {x a s : List Char}
    (h : containsSeg (x ++ a) s = true) : containsSeg a s = true := by
  induction s with
  | nil =>
    cases x with
    | nil => simpa using h
    | cons c t => simp [containsSeg, List.isEmpty] at h
  | cons c t ih =>
    have h' : (x ++ a).isPrefixOf (c :: t) = true ∨ containsSeg (x ++ a) t = true := by
      simpa [containsSeg] using h
    rcases h' with h1 | h2
    · exact containsSeg_of_append_isPrefixOf h1
    · have ht := ih h2
      show (a.isPrefixOf (c :: t) || containsSeg a t) = true
      simp [ht]

/-- A name matching the stricter `*x a*b` pattern also matches `*a*b`:
dropping a fixed leading part of the middle component relaxes the glob. -/
theorem globMatchAB_mono {x a b n : List Char}
    (h : globMatchAB (x ++ a) b n = true) : globMatchAB a b n = true := by
  unfold globMatchAB at h ⊢
  simp only [Bool.and_eq_true] at h ⊢
  exact ⟨h.1, containsSeg_append_left h.2⟩

/-- When some searched extension has a matching file, the extension loop
returns a file, and the returned file matches the pattern of one of the
searched extensions. -/
theorem findFirstOverExts_of_any {files : List FsFile} {p : List Char → FileName → Bool}
    {exts : List (List Char)}
    (h : ∃ e ∈ exts, ∃ f ∈ files, p e f.name = true) :
    ∃ g, findFirstOverExts files p exts = some g ∧ ∃ e ∈ exts, p e g.name = true := by
  induction exts with
  | nil =>
    rcases h with ⟨e, he, _⟩
    exact absurd he (List.not_mem_nil e)
  | cons e es ih =>
    cases hf : files.find? (fun f => p e f.name) with
    | some g =>
      refine ⟨g, ?_, ⟨e, List.mem_cons_self _ _, ?_⟩⟩
      · simp only [findFirstOverExts, hf]
      · have := List.find?_some hf
        simpa using this
    | none =>
      rcases h with ⟨e', he', f, hfmem, hpf⟩
      rcases List.mem_cons.mp he' with rfl | he'
      · have hnone := List.find?_eq_none.mp hf f hfmem
        simp only [Bool.not_eq_true] at hnone
        rw [hpf] at hnone
        exact Bool.noConfusion hnone
      · rcases ih ⟨e', he', f, hfmem, hpf⟩ with ⟨g, hg, e'', he'', hp⟩
        refine ⟨g, ?_, ⟨e'', List.mem_cons_of_mem _ he'', hp⟩⟩
        simp only [findFirstOverExts, hf, hg]

/-- C6: when some file under the InfiniteTalk output tree matches the
`-audio` variant pattern for this job, artifact resolution returns a file
matching that pattern — in particular, when both the plain output file
and the `-audio` variant exist, it returns the `-audio` variant, never
the plain one. -/
theorem C6_audio_variant_preferred :
    ∀ (jid : FileName) (files : List FsFile) (now : Int),
      (files.any (fun f => audioMatch jid f.name) = true →
        ∃ g, InfiniteTalk.find_output_video jid files now = some g
          ∧ audioMatch jid g.name = true)
      ∧ (∀ plain : FsFile, audioMatch jid plain.name = false →
          files.any (fun f => audioMatch jid f.name) = true →
          InfiniteTalk.find_output_video jid files now ≠ some plain) := by
  intro jid files now
  have main : files.any (fun f => audioMatch jid f.name) = true →
      ∃ g, InfiniteTalk.find_output_video jid files now = some g
        ∧ audioMatch jid g.name = true := by
    intro h
    rcases List.any_eq_true.mp h with ⟨f, hfmem, hf⟩
    rw [audioMatch] at hf
    rcases List.any_eq_true.mp hf with ⟨e, he, hglob⟩
    rcases findFirstOverExts_of_any
        (p := fun e n => globMatchAB jid (audioTag ++ e) n)
        ⟨e, he, f, hfmem, hglob⟩ with ⟨g, hg, e', he', hp'⟩
    refine ⟨g, ?_, ?_⟩
    · unfold InfiniteTalk.find_output_video
      rw [hg]
    · rw [audioMatch]
      exact List.any_eq_true.mpr ⟨e', he', hp'⟩
  refine ⟨main, ?_⟩
  intro plain hpl h hcontra
  rcases main h with ⟨g, hg, hga⟩
  have hgp : g = plain := Option.some.inj (hg.symm.trans hcontra)
  rw [hgp, hpl] at hga
  exact Bool.noConfusion hga

/-- Witness for C6: with both the plain and the `-audio` file present for
job id `J`, resolution returns a file carrying the `-audio` marker. -/
theorem C6_audio_variant_preferred_witness :
    ∃ g, InfiniteTalk.find_output_video "J".toList
        [⟨"J_00001.mp4".toList, 0⟩, ⟨"J_00001-audio.mp4".toList, 0⟩] 0 = some g
      ∧ audioMatch "J".toList g.name = true :=
  (C6_audio_variant_preferred "J".toList
    [⟨"J_00001.mp4".toList, 0⟩, ⟨"J_00001-audio.mp4".toList, 0⟩] 0).1 (by decide)

/-- When no file of a directory matches even the relaxed pattern for any
searched extension, the per-directory loop finds nothing (a prefixed
match would also be a relaxed match). -/
theorem qwenPerDir_none {x jid : FileName} {files : List FileName}
    {exts : List (List Char)}
    (h : ∀ e ∈ exts, files.find? (globMatchAB jid e) = none) :
    qwenPerDir (x ++ jid) jid files exts = none := by
  induction exts with
  | nil => rfl
  | cons e es ih =>
    have hrel := h e (List.mem_cons_self _ _)
    have hpre : files.find? (globMatchAB (x ++ jid) e) = none := by
      rw [List.find?_eq_none] at hrel ⊢
      intro n hn hglob
      exact hrel n hn (globMatchAB_mono hglob)
    have hrest := ih (fun e' he' => h e' (List.mem_cons_of_mem _ he'))
    simp only [qwenPerDir, hpre, hrel]
    exact hrest

/-- C7 counterexample: the root output directory holds `zzJ1.png`, which
matches only the relaxed pattern for job id `J`, and the `QwenEdit`
subfolder holds `api_J1.png`, which matches the prefixed pattern; the
algorithm still returns `zzJ1.png`, so a file matching only the relaxed
pattern IS returned while a file matching the prefixed pattern exists. -/
theorem C7_counterexample :
    Qwen.find_output_image "J".toList ["zzJ1.png".toList] ["api_J1.png".toList]
        = some "zzJ1.png".toList
    ∧ globMatchAB ("api_".toList ++ "J".toList) ".png".toList "api_J1.png".toList = true
    ∧ globMatchAB ("api_".toList ++ "J".toList) ".png".toList "zzJ1.png".toList = false := by
  refine ⟨by decide, by decide, by decide⟩

/-- C7 amended: the prefixed-before-relaxed preference holds per directory
and per extension, not globally.  For the first searched pair (root
directory, `.png`): a prefixed match there wins outright, and when the
prefixed pattern has no match there, a relaxed match there is returned
even if later directories or extensions hold prefixed matches.  When no
file in either directory matches even the relaxed pattern for any
searched extension, resolution fails. -/
theorem C7_relaxation_per_directory_and_extension :
    ∀ (jid : FileName) (root sub : List FileName) (f : FileName),
      (root.find? (globMatchAB ("api_".toList ++ jid) ".png".toList) = some f →
        Qwen.find_output_image jid root sub = some f)
      ∧ (root.find? (globMatchAB ("api_".toList ++ jid) ".png".toList) = none →
          root.find? (globMatchAB jid ".png".toList) = some f →
          Qwen.find_output_image jid root sub = some f)
      ∧ ((∀ e ∈ imgExts, root.find? (globMatchAB jid e) = none) →
          (∀ e ∈ imgExts, sub.find? (globMatchAB jid e) = none) →
          Qwen.find_output_image jid root sub = none) := by
  intro jid root sub f
  have hexts : imgExts = ".png".toList ::
      [".jpg".toList, ".jpeg".toList, ".webp".toList, ".bmp".toList] := rfl
  refine ⟨?_, ?_, ?_⟩
  · intro h
    have hq : qwenPerDir ("api_".toList ++ jid) jid root imgExts = some f := by
      rw [hexts]
      simp only [qwenPerDir, h]
    unfold Qwen.find_output_image
    rw [hq]
  · intro h1 h2
    have hq : qwenPerDir ("api_".toList ++ jid) jid root imgExts = some f := by
      rw [hexts]
      simp only [qwenPerDir, h1, h2]
    unfold Qwen.find_output_image
    rw [hq]
  · intro h1 h2
    have r1 := qwenPerDir_none (x := "api_".toList) h1
    have r2 := qwenPerDir_none (x := "api_".toList) h2
    unfold Qwen.find_output_image
    rw [r1, r2]

/-- Witness for C7 amended: the relaxed root match is returned. -/
theorem C7_relaxation_per_directory_and_extension_witness :
    Qwen.find_output_image "J".toList ["zzJ1.png".toList] ["api_J1.png".toList]
      = some "zzJ1.png".toList :=
  (C7_relaxation_per_directory_and_extension "J".toList
    ["zzJ1.png".toList] ["api_J1.png".toList] "zzJ1.png".toList).2.1 (by decide) (by decide)

/-- C8 counterexample: FastWAN resolution can return a `.webm` artifact
(it globs four video extensions), yet its download handler serves it with
the fixed media type `video/mp4` and a filename ending in `.mp4` — the
content type is not derived from the artifact's actual extension (the
repository's own table maps `.webm` to `video/webm`) and the served
filename does not carry the actual extension. -/
theorem C8_counterexample :
    FastWan.find_output_video "J".toList ["api_J_1.webm".toList]
        = some "api_J_1.webm".toList
    ∧ FastWan.downloadMeta "J" "api_J_1.webm".toList
        = ("video/mp4", "generated_video_J.mp4".toList)
    ∧ pathSuffixOf "api_J_1.webm".toList = ".webm".toList
    ∧ (videoMediaMap.lookup ".webm".toList).getD "video/mp4" = "video/webm"
    ∧ ("video/mp4" : String) ≠ "video/webm" := by
  refine ⟨by decide, by decide, by decide, by decide, by decide⟩

/-- C8 amended: in the InfiniteTalk variant the served filename carries
the resolved artifact's actual extension and the media type comes from
the fixed extension→MIME table (lower-cased extension, default
`video/mp4` for unknown extensions); in the FastWAN variant the response
metadata is independent of the resolved path and always uses `video/mp4`
with a `.mp4` filename. -/
theorem C8_content_type_per_variant :
    ∀ (jid : String) (p : FileName),
      (pathSuffixOf p ≠ [] →
        (InfiniteTalk.downloadMeta jid p).2
            = "generated_video_".toList ++ jid.toList ++ pathSuffixOf p
          ∧ (InfiniteTalk.downloadMeta jid p).1
            = (videoMediaMap.lookup (toLowerName (pathSuffixOf p))).getD "video/mp4")
      ∧ (pathSuffixOf p = ".webm".toList →
          (InfiniteTalk.downloadMeta jid p).1 = "video/webm")
      ∧ (∀ p', FastWan.downloadMeta jid p = FastWan.downloadMeta jid p')
      ∧ (FastWan.downloadMeta jid p).1 = "video/mp4"
      ∧ (FastWan.downloadMeta jid p).2
          = "generated_video_".toList ++ jid.toList ++ ".mp4".toList := by
  intro jid p
  refine ⟨?_, ?_, fun _ => rfl, rfl, rfl⟩
  · intro h
    cases hsp : pathSuffixOf p with
    | nil => exact absurd hsp h
    | cons c t =>
      constructor
      · simp [InfiniteTalk.downloadMeta, hsp]
      · simp [InfiniteTalk.downloadMeta, hsp]
  · intro h
    simp only [InfiniteTalk.downloadMeta, h]
    decide

/-- Witness for C8 amended: a resolved `.webm` artifact is served by the
InfiniteTalk handler with a `.webm` filename and the table's MIME type. -/
theorem C8_content_type_per_variant_witness :
    (InfiniteTalk.downloadMeta "J" "v.webm".toList).2
        = "generated_video_".toList ++ "J".toList ++ pathSuffixOf "v.webm".toList
    ∧ (InfiniteTalk.downloadMeta "J" "v.webm".toList).1
        = (videoMediaMap.lookup (toLowerName (pathSuffixOf "v.webm".toList))).getD
            "video/mp4" :=
  (C8_content_type_per_variant "J" "v.webm".toList).1 (by decide)

/-- C10: in the fastwan2.2-5b wrapper, a status query on a completed job
augments the record object stored in the shared map itself, so the added
`video_ready` and `download_url` fields persist in the map (and hence in
later GET `/jobs` responses, which return the map); the
qwen-image-edit-comfyui wrapper augments a copy, and a status query never
changes the stored map. -/
theorem C10_status_mutation_persists_only_in_fastwan :
    ∀ (m : JobMap) (jid : String) (rec : JobRecord) (p : FileName),
      (m jid = some rec → rec.status = "completed" →
        ∃ rec' m', FastWan.get_job_status m jid (some p) = some (rec', m')
          ∧ rec'.video_ready = some true
          ∧ rec'.download_url = some ("/download/" ++ jid)
          ∧ m' jid = some rec'
          ∧ ∀ k, k ≠ jid → m' k = m k)
      ∧ (∀ f1 f2 r mp, Qwen.get_job_status m jid f1 f2 = some (r, mp) → mp = m) := by
  intro m jid rec p
  constructor
  · intro hm hs
    unfold FastWan.get_job_status
    rw [hm]
    simp only [hs, if_true]
    exact ⟨_, _, rfl, rfl, rfl, by simp, fun k hk => by simp [hk]⟩
  · intro f1 f2 r mp h
    unfold Qwen.get_job_status at h
    cases hm : m jid with
    | none => rw [hm] at h; exact Option.noConfusion h
    | some rec0 =>
      rw [hm] at h
      by_cases hs : rec0.status = "completed"
      · simp only [hs, if_true] at h
        cases f1 with
        | some q =>
          simp only at h
          cases h
          rfl
        | none =>
          cases f2 with
          | some q =>
            simp only at h
            cases h
            rfl
          | none =>
            simp only at h
            cases h
            rfl
      · simp only [hs, if_false] at h
        cases h
        rfl

/-- Witness for C10: a concrete completed job in a one-entry map. -/
theorem C10_status_mutation_persists_only_in_fastwan_witness :
    ∃ rec' m', FastWan.get_job_status
        (fun k => if k = "j" then some completedRecord else none) "j"
        (some "v.mp4".toList) = some (rec', m')
      ∧ rec'.video_ready = some true
      ∧ rec'.download_url = some ("/download/" ++ "j")
      ∧ m' "j" = some rec'
      ∧ ∀ k, k ≠ "j" → m' k = (fun k => if k = "j" then some completedRecord else none) k :=
  ((C10_status_mutation_persists_only_in_fastwan
    (fun k => if k = "j" then some completedRecord else none) "j"
    completedRecord "v.mp4".toList).1 (by decide) rfl)

end ComfyWrap
